import Mathlib

/-!
Verification of the zk-sac-engine core against its specification.

This file shallowly embeds the relevant Rust code:
 * `src/consensus/engine.rs` — transaction execution, block headers,
   block application, producer selection;
 * `src/zkvm/programs/guest_program.rs` — the guest state-transition relation;
 * `src/zkvm/real_proofs.rs` — the gas figure reported with proofs;
 * `src/crypto/hash.rs` — the Merkle root;
 * `src/crypto/signatures.rs` — the mock LMS sign/verify pair;
 * the bincode (legacy 1.x configuration) encoding of `Transaction`.

Bytes are `Nat`s below 256 carried in `List Nat`; `u64` arithmetic takes an
explicit `% 2^64` exactly where the Rust release build wraps.  Rust `HashMap`s
are association lists whose operations touch the first matching key (a faithful
rendering, since a `HashMap` holds each key once).  External cryptographic
hashes (Blake3) are abstract function parameters.  The Rust field name `from`
is a Lean keyword and is rendered `fromA` (and `to` as `toA` for symmetry).
-/

namespace ZkSac

/-- `2^64`, the modulus of Rust `u64` wrapping arithmetic. -/
def U64MOD : Nat := 18446744073709551616

/-- Little-endian byte rendering, `w` bytes wide (Rust `to_le_bytes`). -/
def leBytes : Nat → Nat → List Nat
  | 0, _ => []
  | w + 1, n => n % 256 :: leBytes w (n / 256)

/-- Value of a little-endian byte list (Rust `from_le_bytes`). -/
def leVal (bs : List Nat) : Nat := bs.foldr (fun b acc => b + 256 * acc) 0

/-- Pointwise XOR of two byte strings (truncating to the shorter). -/
def xorBytes (a b : List Nat) : List Nat := List.zipWith Nat.xor a b

/-- XOR `bs` into a 32-byte string starting at offset `off`, leaving the other
positions unchanged (the `for`-loop XOR patterns of the guest program). -/
def xorAt (root : List Nat) (off : Nat) (bs : List Nat) : List Nat :=
  xorBytes root (List.replicate off 0 ++ bs ++ List.replicate (32 - off - bs.length) 0)

/-- The all-zero 32-byte digest (`BlockHash::zero()` / `[0u8; 32]`). -/
def zero32 : List Nat := List.replicate 32 0

/-! ## Data model (`src/types/mod.rs`) -/

/-- 20-byte account identifier (`Address(pub [u8; 20])`). -/
abbrev Address := List Nat

/-- `SignatureType` from `src/types/mod.rs`. -/
inductive SignatureType where
  | Ed25519
  | Secp256k1
  | PostQuantum
deriving DecidableEq

/-- `Account` from `src/types/mod.rs`; `storage: HashMap<[u8;32],[u8;32]>`
is an association list here (it is never read by the embedded operations). -/
structure Account where
  balance : Nat
  nonce : Nat
  code : List Nat
  storage : List (List Nat × List Nat)
deriving DecidableEq

/-- `WorldState` from `src/types/mod.rs`; `accounts: HashMap<Address, Account>`
is an association list with at most one live entry per key. -/
structure WorldState where
  accounts : List (Address × Account)
  global_nonce : Nat
  state_root : List Nat
  block_number : Nat
deriving DecidableEq

/-- `Transaction` from `src/types/mod.rs` (field order as declared). -/
structure Transaction where
  fromA : Address
  toA : Address
  value : Nat
  data : List Nat
  gas_limit : Nat
  nonce : Nat
  signature : List Nat
  sig_type : SignatureType
deriving DecidableEq

/-- `ProofType` from `src/types/mod.rs`. -/
inductive ProofType where
  | SP1
  | Risc0
  | Plonky3
deriving DecidableEq

/-- `ZkProof` from `src/types/mod.rs`. -/
structure ZkProof where
  proof_data : List Nat
  public_inputs : List Nat
  verification_key : List Nat
  proof_type : ProofType
deriving DecidableEq

/-- `BlockHeader` from `src/types/mod.rs` (field order as declared). -/
structure BlockHeader where
  previous_hash : List Nat
  merkle_root : List Nat
  state_root : List Nat
  timestamp : Nat
  block_number : Nat
  gas_limit : Nat
  gas_used : Nat
  producer : Address
  extra_data : List Nat
deriving DecidableEq

/-- `ValidatorSignature` from `src/types/mod.rs`. -/
structure ValidatorSignature where
  validator_address : Address
  stake_weight : Nat
  signature : List Nat
  sig_type : SignatureType
deriving DecidableEq

/-- `ProtocolRule` from `src/types/mod.rs`. -/
structure ProtocolRule where
  rule_id : Nat
  rule_data : List Nat
  validity_proof : ZkProof
  activation_epoch : Nat
deriving DecidableEq

/-- `Block` from `src/types/mod.rs`. -/
structure Block where
  header : BlockHeader
  transactions : List Transaction
  validator_signatures : List ValidatorSignature
  recursive_proof : ZkProof
  protocol_updates : List ProtocolRule
deriving DecidableEq

/-- `Validator` from `src/types/mod.rs`.  The `performance_score: f64` field is
omitted: it is floating point and is read by none of the embedded operations. -/
structure Validator where
  address : Address
  stake : Nat
  public_key : List Nat
deriving DecidableEq

/-- `ValidatorSet` from `src/types/mod.rs`. -/
structure ValidatorSet where
  validators : List Validator
  total_stake : Nat
deriving DecidableEq

/-- The engine state (`ZkSacConsensusEngine`, `src/consensus/engine.rs`),
restricted to the fields its embedded methods read or write; the signature
engines, coordinator and configuration fields are unused by them. -/
structure ZkSacConsensusEngine where
  current_state : WorldState
  validator_set : ValidatorSet
  blocks : List Block
  pending_transactions : List Transaction
deriving DecidableEq

/-! ## Association-list rendering of `HashMap` operations -/

/-- `accounts.get(&k)` / `accounts.get_mut(&k)` lookup: the first entry with
key `k` (a `HashMap` holds each key at most once). -/
def lookupAccount (k : Address) : List (Address × Account) → Option Account
  | [] => none
  | (a, acc) :: rest => if a = k then some acc else lookupAccount k rest

/-- In-place mutation through `get_mut`/`entry`: rewrite the first entry with
key `k` by `f`, leaving everything else untouched. -/
def modifyFirst (k : Address) (f : Account → Account) :
    List (Address × Account) → List (Address × Account)
  | [] => []
  | (a, acc) :: rest =>
    if a = k then (a, f acc) :: rest else (a, acc) :: modifyFirst k f rest

/-! ## `ZkSacConsensusEngine::execute_transactions_with_zkvm`
(`src/consensus/engine.rs`, lines 83–115) -/

/-- The sender half of one loop iteration:
`if let Some(from_account) = accounts.get_mut(&tx.from) {
   if from_account.balance >= tx.value {
     from_account.balance -= tx.value; from_account.nonce += 1; } }`. -/
def debitSender (accounts : List (Address × Account)) (tx : Transaction) :
    List (Address × Account) :=
  match lookupAccount tx.fromA accounts with
  | some acc =>
    if tx.value ≤ acc.balance then
      modifyFirst tx.fromA
        (fun a => { a with balance := a.balance - tx.value,
                           nonce := (a.nonce + 1) % U64MOD }) accounts
    else accounts
  | none => accounts

/-- The recipient half of one loop iteration:
`accounts.entry(tx.to).or_insert_with(|| Account { balance: 0, nonce: 0,
 code: Vec::new(), storage: HashMap::new() }).balance += tx.value;`. -/
def creditRecipient (accounts : List (Address × Account)) (tx : Transaction) :
    List (Address × Account) :=
  match lookupAccount tx.toA accounts with
  | some _ =>
    modifyFirst tx.toA
      (fun a => { a with balance := (a.balance + tx.value) % U64MOD }) accounts
  | none =>
    accounts ++ [(tx.toA, { balance := tx.value % U64MOD, nonce := 0,
                            code := [], storage := [] })]

/-- One iteration of the transaction loop of
`execute_transactions_with_zkvm`: sender update, then recipient update. -/
def executeTx (accounts : List (Address × Account)) (tx : Transaction) :
    List (Address × Account) :=
  creditRecipient (debitSender accounts tx) tx

/-- The mock proof built at the end of `execute_transactions_with_zkvm`:
`ZkProof { proof_data: vec![0; 32], public_inputs: vec![],
 verification_key: vec![], proof_type: ProofType::Risc0 }`. -/
def mockZkProof : ZkProof :=
  { proof_data := List.replicate 32 0, public_inputs := [],
    verification_key := [], proof_type := ProofType.Risc0 }

/-- `ZkSacConsensusEngine::execute_transactions_with_zkvm`: clone the current
state, run the loop over the batch, and return `Ok((new_state, mock proof))`.
The Rust body has no error path. -/
def execute_transactions_with_zkvm (e : ZkSacConsensusEngine)
    (transactions : List Transaction) : Except String (WorldState × ZkProof) :=
  Except.ok
    ({ e.current_state with
        accounts := transactions.foldl executeTx e.current_state.accounts },
     mockZkProof)

/-! ## Block production and application (`src/consensus/engine.rs`) -/

/-- `ZkSacConsensusEngine::get_last_block_hash`: the consensus hash of the
serialized last header, or the zero hash at genesis.  Serialization plus
Blake3 (`compute_consensus_hash`) is the abstract `headerHash` parameter. -/
def get_last_block_hash (headerHash : BlockHeader → List Nat)
    (e : ZkSacConsensusEngine) : List Nat :=
  match e.blocks.getLast? with
  | some b => headerHash b.header
  | none => zero32

/-- `ZkSacConsensusEngine::create_block_header` (lines 159–174).  The Rust code
reads the wall clock for `timestamp`; the clock value is the `now` parameter.
`gas_used` is the (wrapping) sum of the transactions' `gas_limit` fields. -/
def create_block_header (headerHash : BlockHeader → List Nat)
    (e : ZkSacConsensusEngine) (now : Nat) (transactions : List Transaction)
    (producer : Address) : BlockHeader :=
  { previous_hash := get_last_block_hash headerHash e,
    merkle_root := zero32,
    state_root := e.current_state.state_root,
    timestamp := now,
    block_number := e.blocks.length + 1,
    gas_used := (transactions.map Transaction.gas_limit).sum % U64MOD,
    gas_limit := 30000000,
    producer := producer,
    extra_data := [] }

/-- `ConsensusEngine::apply_block` for `ZkSacConsensusEngine` (lines 238–250):
re-execute the block's transactions, replace the state, push the block.  No
header field is inspected. -/
def apply_block (e : ZkSacConsensusEngine) (block : Block) :
    Except String ZkSacConsensusEngine :=
  match execute_transactions_with_zkvm e block.transactions with
  | Except.ok (s, _) =>
    Except.ok { e with current_state := s, blocks := e.blocks ++ [block] }
  | Except.error msg => Except.error msg

/-- `ConsensusEngine::select_block_producer` (lines 252–263): error on an empty
validator set, otherwise round-robin by `block_number % validators.len()`. -/
def select_block_producer (e : ZkSacConsensusEngine) (block_number : Nat) :
    Except String Address :=
  match e.validator_set.validators with
  | [] => Except.error "No validators available"
  | v :: vs =>
    Except.ok
      (((v :: vs).get
        ⟨block_number % (v :: vs).length, Nat.mod_lt _ (Nat.succ_pos _)⟩).address)

/-- The selection rule as the specification words it (stake-weighted sampling):
walk the validators accumulating stake and pick the one whose cumulative
interval `[acc, acc + stake)` contains the drawn value.  The draw itself
(`wire-hash(prev_hash ∥ h)` reduced into `[0, total_stake)`) is abstracted as
the `draw` parameter: the refutation below holds for every possible draw. -/
def spec_select_producer_from (draw : Nat) :
    List Validator → Nat → Option Address
  | [], _ => none
  | v :: vs, acc =>
    if draw < acc + v.stake then some v.address
    else spec_select_producer_from draw vs (acc + v.stake)

/-- Stake-weighted selection per the specification, starting from cumulative
stake `0`. -/
def spec_select_block_producer (validators : List Validator) (draw : Nat) :
    Option Address :=
  spec_select_producer_from draw validators 0

/-! ## Guest program (`src/zkvm/programs/guest_program.rs`) -/

/-- `TransactionData` (field order as declared). -/
structure TransactionData where
  fromA : List Nat
  toA : List Nat
  value : Nat
  nonce : Nat
  data : List Nat
deriving DecidableEq

/-- `StateTransitionInput` (field order as declared). -/
structure StateTransitionInput where
  prev_state_root : List Nat
  transactions : List TransactionData
  block_number : Nat
  timestamp : Nat
deriving DecidableEq

/-- `StateTransitionOutput` (field order as declared). -/
structure StateTransitionOutput where
  new_state_root : List Nat
  transaction_count : Nat
  gas_used : Nat
  success : Bool
deriving DecidableEq

/-- `verify_transaction_signature` (lines 87–91): the simplified check that
neither address is all zero bytes. -/
def verify_transaction_signature (tx : TransactionData) : Bool :=
  !(tx.fromA.all (· == 0)) && !(tx.toA.all (· == 0))

/-- `compute_transaction_hash` (lines 93–116): XOR the two addresses into the
first 20 bytes, the little-endian value into bytes 0–7 and the little-endian
nonce into bytes 8–15 of a zeroed 32-byte digest. -/
def compute_transaction_hash (tx : TransactionData) : List Nat :=
  xorAt (xorAt (xorAt (xorAt zero32 0 tx.fromA) 0 tx.toA)
    0 (leBytes 8 tx.value)) 8 (leBytes 8 tx.nonce)

/-- `update_state_root` (lines 118–133): XOR the transaction hash into the
root, then the little-endian transaction index into bytes 0–7. -/
def update_state_root (current_root tx_hash : List Nat) (tx_index : Nat) :
    List Nat :=
  xorAt (xorBytes current_root tx_hash) 0 (leBytes 8 tx_index)

/-- `finalize_state_root` (lines 135–148): XOR the little-endian block number
into bytes 0–7 and the little-endian timestamp into bytes 8–15. -/
def finalize_state_root (state_root : List Nat) (block_number timestamp : Nat) :
    List Nat :=
  xorAt (xorAt state_root 0 (leBytes 8 block_number)) 8 (leBytes 8 timestamp)

/-- Gas charged for one processed transaction:
`21000 + tx.data.len() as u64 * 16`. -/
def guestGas (tx : TransactionData) : Nat := 21000 + tx.data.length * 16

/-- The transaction loop of `verify_state_transition` (lines 59–72), with its
`break` on the first failing signature rendered as the early-return arm.
Returns (accumulated root, accumulated gas, success flag); the `u64` gas
accumulator wraps, rendered by one `% 2^64` per addition. -/
def processTxs (root : List Nat) (gas idx : Nat) :
    List TransactionData → List Nat × Nat × Bool
  | [] => (root, gas, true)
  | tx :: rest =>
    if verify_transaction_signature tx then
      processTxs (update_state_root root (compute_transaction_hash tx) idx)
        ((gas + guestGas tx) % U64MOD) (idx + 1) rest
    else (root, gas, false)

/-- `verify_state_transition` (lines 53–85): run the loop from the previous
root with zero gas at index 0; mix block number and timestamp into the root
only on success. -/
def verify_state_transition (input : StateTransitionInput) :
    StateTransitionOutput :=
  match processTxs input.prev_state_root 0 0 input.transactions with
  | (root, gas, success) =>
    { new_state_root :=
        if success then
          finalize_state_root root input.block_number input.timestamp
        else root,
      transaction_count := input.transactions.length,
      gas_used := gas,
      success := success }

/-- The conversion `RealZKProver::generate_state_transition_proof` applies to
each `Transaction` to feed the guest program (`src/zkvm/real_proofs.rs`,
lines 57–65). -/
def txToData (tx : Transaction) : TransactionData :=
  { fromA := tx.fromA, toA := tx.toA, value := tx.value, nonce := tx.nonce,
    data := tx.data }

/-- The `gas_used` figure placed in `public_outputs` by
`RealZKProver::generate_state_transition_proof` (lines 96–101): the wrapping
sum of the batch's `gas_limit` fields, not a function of the data lengths. -/
def realProverGasUsed (transactions : List Transaction) : Nat :=
  (transactions.map Transaction.gas_limit).sum % U64MOD

/-! ## Merkle root (`src/crypto/hash.rs`, lines 117–148)

The Blake3 hash itself is an external crate; it enters as the abstract
function parameter `b3`. -/

/-- One pass of `for chunk in level.chunks(2)`: a full pair becomes the hash
of the concatenation, a lone trailing node is pushed unchanged. -/
def merkleLevel (b3 : List Nat → List Nat) :
    List (List Nat) → List (List Nat)
  | x :: y :: rest => b3 (x ++ y) :: merkleLevel b3 rest
  | l => l

/-- Each pass halves the node count, rounding up. -/
theorem merkleLevel_length (b3 : List Nat → List Nat) :
    ∀ l : List (List Nat), (merkleLevel b3 l).length = (l.length + 1) / 2
  | [] => by simp [merkleLevel]
  | [_] => by simp [merkleLevel]
  | _ :: _ :: rest => by
    simp only [merkleLevel, List.length_cons, merkleLevel_length b3 rest]
    omega

/-- The `while level.len() > 1` loop of `merkle_root`. -/
def merkleLoop (b3 : List Nat → List Nat) :
    List (List Nat) → List (List Nat)
  | [] => []
  | [x] => [x]
  | x :: y :: rest => merkleLoop b3 (merkleLevel b3 (x :: y :: rest))
  termination_by l => l.length
  decreasing_by
    simp only [merkleLevel, List.length_cons, merkleLevel_length]
    omega

/-- `merkle_root`: zero digest for no leaves, `blake3(leaf)` for one leaf,
otherwise hash every leaf and fold levels until one node (`level[0]`) is
left. -/
def merkle_root (b3 : List Nat → List Nat) (leaves : List (List Nat)) :
    List Nat :=
  match leaves with
  | [] => zero32
  | [l] => b3 l
  | ls => (merkleLoop b3 (ls.map b3)).headD zero32

/-- The Merkle root as the specification words it, over the hashed leaves:
one node is the root; otherwise combine pairwise — `b3 (left ++ right)` — with
an odd trailing node promoted unchanged, and recurse on the new level.  Stated
a second time, separately from `merkle_root`, to be compared with it. -/
def spec_merkle_reduce (b3 : List Nat → List Nat) :
    List (List Nat) → List Nat
  | [] => zero32
  | [x] => x
  | x :: y :: rest => spec_merkle_reduce b3 (merkleLevel b3 (x :: y :: rest))
  termination_by l => l.length
  decreasing_by
    simp only [merkleLevel, List.length_cons, merkleLevel_length]
    omega

/-- The specification's Merkle root: all-zero for the empty sequence,
otherwise the pairwise reduction of the hashed leaves. -/
def spec_merkle_root (b3 : List Nat → List Nat) (leaves : List (List Nat)) :
    List Nat :=
  match leaves with
  | [] => zero32
  | ls => spec_merkle_reduce b3 (ls.map b3)

/-! ## Mock LMS signatures (`src/crypto/signatures.rs`, lines 153–206)

Blake3 is external and enters as the abstract parameter `b3`.  The host is
64-bit, so `usize::to_le_bytes` yields 8 bytes. -/

/-- `usize` width in bytes on the 64-bit host. -/
def USIZE_BYTES : Nat := 8

/-- `dst[off..off+len].copy_from_slice(src)`: Rust panics unless
`src.len() == len`; the panic is the `none` branch. -/
def copyFromSlice (dst : List Nat) (off len : Nat) (src : List Nat) :
    Option (List Nat) :=
  if src.length = len then
    some (dst.take off ++ src ++ dst.drop (off + len))
  else none

/-- A single-index store `dst[i] = v`. -/
def setByte (dst : List Nat) (i v : Nat) : List Nat := dst.set i v

/-- `PostQuantumSigner::sign_lms` (lines 153–179): a zeroed 1024-byte buffer;
the first 4 address bytes at 0..4; `message.len().to_le_bytes()` copied into
the 4-byte slice 4..8; `0xAA` at index 8; `blake3(message)` at 9..41. -/
def sign_lms (b3 : List Nat → List Nat) (address : Address)
    (message : List Nat) : Option (List Nat) := do
  let sig0 := List.replicate 1024 0
  let sig1 ← copyFromSlice sig0 0 4 (address.take 4)
  let sig2 ← copyFromSlice sig1 4 4 (leBytes USIZE_BYTES message.length)
  let sig3 := setByte sig2 8 170
  let sig4 ← copyFromSlice sig3 9 32 (b3 message)
  some sig4

/-- `&l[a..b]` on a list already known long enough. -/
def sliceBytes (l : List Nat) (a b : Nat) : List Nat := (l.drop a).take (b - a)

/-- `PostQuantumSigner::verify_lms` (lines 181–206): format check (length at
least 41, first 4 bytes match the address, bytes 4..8 decode to the message
length, byte 8 is `0xAA`), then the Blake3 message-hash comparison at 9..41. -/
def verify_lms (b3 : List Nat → List Nat) (signature : List Nat)
    (address : Address) (message : List Nat) : Except String Unit :=
  if 41 ≤ signature.length ∧ sliceBytes signature 0 4 = address.take 4 ∧
      leVal (sliceBytes signature 4 8) = message.length ∧
      signature.getD 8 0 = 170 then
    if sliceBytes signature 9 41 = b3 message then Except.ok ()
    else Except.error "LMS signature message hash mismatch"
  else Except.error "Invalid LMS signature format"

/-! ## Canonical binary encoding (`src/serialization.rs`, lines 14–31)

`encode_blockchain_data` / `decode_blockchain_data` are thin wrappers around
the external `bincode::serialize` / `bincode::deserialize` legacy functions,
whose documented configuration is fixed-width little-endian integers, `u64`
length prefixes for sequences, `u32` variant tags for enums, and trailing
bytes permitted on decode.  That contract is embedded here at the
`Transaction` instance (its serde field order is the declaration order). -/

/-- The `u32` variant tag bincode assigns to a `SignatureType` value. -/
def sigTypeTag : SignatureType → Nat
  | SignatureType.Ed25519 => 0
  | SignatureType.Secp256k1 => 1
  | SignatureType.PostQuantum => 2

/-- A `Vec<u8>`: `u64` little-endian length, then the raw bytes. -/
def encodeVec (v : List Nat) : List Nat := leBytes 8 v.length ++ v

/-- `encode_blockchain_data::<Transaction>`: the fields in declaration order —
`from`, `to`, `value`, `data`, `gas_limit`, `nonce`, `signature`,
`sig_type`. -/
def encode_blockchain_data (tx : Transaction) : List Nat :=
  tx.fromA ++ tx.toA ++ leBytes 8 tx.value ++ encodeVec tx.data ++
    leBytes 8 tx.gas_limit ++ leBytes 8 tx.nonce ++ encodeVec tx.signature ++
    leBytes 4 (sigTypeTag tx.sig_type)

/-- Read exactly `n` bytes; error when the input is shorter. -/
def readBytes (n : Nat) (b : List Nat) : Option (List Nat × List Nat) :=
  if n ≤ b.length then some (b.take n, b.drop n) else none

/-- Read a fixed-width little-endian `u64`. -/
def readU64 (b : List Nat) : Option (Nat × List Nat) :=
  (readBytes 8 b).map (fun p => (leVal p.1, p.2))

/-- Read a `Vec<u8>`: `u64` length prefix, then that many bytes. -/
def readVec (b : List Nat) : Option (List Nat × List Nat) := do
  let (n, r) ← readU64 b
  readBytes n r

/-- Read a `SignatureType`: a `u32` variant tag, rejecting unknown tags. -/
def readSigType (b : List Nat) : Option (SignatureType × List Nat) := do
  let (t, r) ← (readBytes 4 b).map (fun p => (leVal p.1, p.2))
  match t with
  | 0 => some (SignatureType.Ed25519, r)
  | 1 => some (SignatureType.Secp256k1, r)
  | 2 => some (SignatureType.PostQuantum, r)
  | _ => none

/-- The field-by-field bincode read of a `Transaction`, returning the decoded
value and the unconsumed remainder. -/
def readTransaction (b : List Nat) : Option (Transaction × List Nat) := do
  let (f, b) ← readBytes 20 b
  let (t, b) ← readBytes 20 b
  let (value, b) ← readU64 b
  let (data, b) ← readVec b
  let (gas_limit, b) ← readU64 b
  let (nonce, b) ← readU64 b
  let (signature, b) ← readVec b
  let (st, b) ← readSigType b
  some ({ fromA := f, toA := t, value := value, data := data,
          gas_limit := gas_limit, nonce := nonce, signature := signature,
          sig_type := st }, b)

/-- `decode_blockchain_data::<Transaction>`: the legacy bincode configuration
permits trailing bytes, so the remainder is discarded, not rejected. -/
def decode_blockchain_data (b : List Nat) : Option Transaction :=
  (readTransaction b).map (fun p => p.1)

/-- Well-formedness of a `Transaction` as the Rust types guarantee it:
20-byte addresses and `u64` numeric fields and lengths. -/
def Transaction.wf (tx : Transaction) : Prop :=
  tx.fromA.length = 20 ∧ tx.toA.length = 20 ∧ tx.value < U64MOD ∧
    tx.data.length < U64MOD ∧ tx.gas_limit < U64MOD ∧ tx.nonce < U64MOD ∧
    tx.signature.length < U64MOD

/-! ## Derived quantities and concrete fixtures used by the theorems -/

/-- Total of all balances held in an account table. -/
def sumBalances (l : List (Address × Account)) : Nat :=
  (l.map (fun p => p.2.balance)).sum

/-- The root accumulator of the guest loop, restricted to a list of
transactions that all pass the signature check. -/
def applyTxs (root : List Nat) (idx : Nat) : List TransactionData → List Nat
  | [] => root
  | tx :: rest =>
    applyTxs (update_state_root root (compute_transaction_hash tx) idx)
      (idx + 1) rest

/-- Gas of a transaction list under the guest model `21000 + 16·len(data)`. -/
def sumGuestGas (l : List TransactionData) : Nat := (l.map guestGas).sum

/-- A chain whose i-th block carries block number `i + 1`, as the engine
numbers the blocks it creates itself. -/
def chainConsecutive (blocks : List Block) : Prop :=
  ∀ i (h : i < blocks.length), blocks[i].header.block_number = i + 1

/-- `Address::new(id)`: nineteen zero bytes and `id` last. -/
def addrOf (id : Nat) : Address := List.replicate 19 0 ++ [id]

/-- An empty world state (`WorldState::default()`). -/
def emptyState : WorldState :=
  { accounts := [], global_nonce := 0, state_root := zero32, block_number := 0 }

/-- An engine with no blocks, no validators and an empty state. -/
def engine0 : ZkSacConsensusEngine :=
  { current_state := emptyState,
    validator_set := { validators := [], total_stake := 0 },
    blocks := [], pending_transactions := [] }

/-- A plain transfer transaction (`Transaction::new`). -/
def txTransfer (a b : Address) (v : Nat) : Transaction :=
  { fromA := a, toA := b, value := v, data := [], gas_limit := 21000,
    nonce := 0, signature := List.replicate 64 0,
    sig_type := SignatureType.Ed25519 }

/-- A block with the given number and timestamp and no transactions, as a
peer could hand it to `apply_block`. -/
def blockNumbered (n ts : Nat) : Block :=
  { header := { previous_hash := zero32, merkle_root := zero32,
                state_root := zero32, timestamp := ts, block_number := n,
                gas_limit := 0, gas_used := 0, producer := addrOf 9,
                extra_data := [] },
    transactions := [], validator_signatures := [],
    recursive_proof := mockZkProof, protocol_updates := [] }

/-- A block the engine itself would produce on top of `engine0`. -/
def blockSelfProduced : Block :=
  { header := create_block_header (fun _ => zero32) engine0 0 [] (addrOf 9),
    transactions := [], validator_signatures := [],
    recursive_proof := mockZkProof, protocol_updates := [] }

/-- A guest transaction whose simplified signature check passes. -/
def txDataOk : TransactionData :=
  { fromA := 1 :: List.replicate 19 0, toA := 2 :: List.replicate 19 0,
    value := 0, nonce := 0, data := [] }

/-- A guest transaction whose sender address is all zero, failing the
simplified signature check. -/
def txDataBad : TransactionData :=
  { fromA := List.replicate 20 0, toA := 2 :: List.replicate 19 0,
    value := 0, nonce := 0, data := [] }

/-- A zero-stake validator and a staked one, for the election claims. -/
def valZeroStake : Validator := { address := addrOf 1, stake := 0, public_key := [] }

/-- The staked validator of the election fixture. -/
def valStaked : Validator := { address := addrOf 2, stake := 10, public_key := [] }

/-- Engine whose validator set is `[valZeroStake, valStaked]`. -/
def engineElection : ZkSacConsensusEngine :=
  { current_state := emptyState,
    validator_set := { validators := [valZeroStake, valStaked], total_stake := 10 },
    blocks := [], pending_transactions := [] }

/-- A transaction with empty data and `gas_limit = 5`, separating the two gas
models. -/
def txGasFixture : Transaction :=
  { fromA := addrOf 1, toA := addrOf 2, value := 0, data := [],
    gas_limit := 5, nonce := 0, signature := List.replicate 64 0,
    sig_type := SignatureType.Ed25519 }

/-- An all-default transaction for the serialization claims. -/
def txEncodeFixture : Transaction :=
  { fromA := List.replicate 20 0, toA := List.replicate 20 0, value := 0,
    data := [], gas_limit := 0, nonce := 0, signature := [],
    sig_type := SignatureType.Ed25519 }

/-- Decidable form of "the sender cannot cover `tx.value`": its account is
absent, or holds a balance below the value. -/
def senderLacksFunds (l : List (Address × Account)) (tx : Transaction) : Bool :=
  match lookupAccount tx.fromA l with
  | none => true
  | some acc => acc.balance < tx.value

/-- Engine fixture for the insufficient-funds scenarios: the sender exists
with balance `0`. -/
def engineBroke : ZkSacConsensusEngine :=
  { engine0 with
      current_state :=
        { emptyState with
            accounts := [(addrOf 1,
              { balance := 0, nonce := 0, code := [], storage := [] })] } }

/-! ## Account-table lemmas -/

/-- Rewriting the first entry of a key changes the balance total by exactly
the change applied to that entry. -/
theorem sumBalances_modifyFirst (k : Address) (f : Account → Account) :
    ∀ (l : List (Address × Account)) (acc : Account),
      lookupAccount k l = some acc →
      sumBalances (modifyFirst k f l) + acc.balance
        = sumBalances l + (f acc).balance
  | [], acc, h => by simp [lookupAccount] at h
  | (a, x) :: rest, acc, h => by
    by_cases hak : a = k
    · rw [lookupAccount, if_pos hak] at h
      obtain rfl : x = acc := by injection h
      simp only [modifyFirst, if_pos hak, sumBalances, List.map_cons,
        List.sum_cons]
      omega
    · rw [lookupAccount, if_neg hak] at h
      have ih := sumBalances_modifyFirst k f rest acc h
      simp only [modifyFirst, if_neg hak, sumBalances, List.map_cons,
        List.sum_cons] at *
      omega

/-- The balance held in any entry is bounded by the balance total. -/
theorem lookupAccount_balance_le (k : Address) :
    ∀ (l : List (Address × Account)) (acc : Account),
      lookupAccount k l = some acc → acc.balance ≤ sumBalances l
  | [], acc, h => by simp [lookupAccount] at h
  | (a, x) :: rest, acc, h => by
    by_cases hak : a = k
    · rw [lookupAccount, if_pos hak] at h
      obtain rfl : x = acc := by injection h
      simp only [sumBalances, List.map_cons, List.sum_cons]
      omega
    · rw [lookupAccount, if_neg hak] at h
      have ih := lookupAccount_balance_le k rest acc h
      simp only [sumBalances, List.map_cons, List.sum_cons] at *
      omega

/-- The recipient update adds exactly `tx.value` to the balance total (when
the `u64` addition does not wrap). -/
theorem sumBalances_creditRecipient (l : List (Address × Account))
    (tx : Transaction) (hov : sumBalances l + tx.value < U64MOD) :
    sumBalances (creditRecipient l tx) = sumBalances l + tx.value := by
  cases hl : lookupAccount tx.toA l with
  | none =>
    have hv : tx.value % U64MOD = tx.value := Nat.mod_eq_of_lt (by omega)
    simp [creditRecipient, hl, sumBalances, hv]
  | some acc =>
    have hle := lookupAccount_balance_le tx.toA l acc hl
    have hsum := sumBalances_modifyFirst tx.toA
      (fun a => { a with balance := (a.balance + tx.value) % U64MOD }) l acc hl
    have hmod : (acc.balance + tx.value) % U64MOD = acc.balance + tx.value :=
      Nat.mod_eq_of_lt (by omega)
    simp only [hmod] at hsum
    simp only [creditRecipient, hl]
    omega

/-- A sender that cannot cover the value is left untouched: the debit branch
is a no-op. -/
theorem debitSender_of_lacks (l : List (Address × Account)) (tx : Transaction)
    (h : senderLacksFunds l tx = true) : debitSender l tx = l := by
  unfold senderLacksFunds at h
  cases hl : lookupAccount tx.fromA l with
  | none => simp [debitSender, hl]
  | some acc =>
    rw [hl] at h
    simp only [decide_eq_true_eq] at h
    simp only [debitSender, hl]
    rw [if_neg (by omega)]

/-! ## The claims -/

/-- Claim C1 (code bug).  The specification requires `execute_transactions`
to fail a transaction whose signature is invalid, whose nonce mismatches or
whose sender balance is insufficient, and otherwise to debit `value + fee`.
The engine does none of this: at the concrete failing input — a transfer of 5
from a sender with no funds at all — it returns `Ok`, skips the debit, and
still credits the recipient with 5, minting value out of nothing. -/
theorem C1_engine_accepts_unfunded_transfer :
    execute_transactions_with_zkvm engine0 [txTransfer (addrOf 1) (addrOf 2) 5]
      = Except.ok
          ({ accounts := [(addrOf 2,
              { balance := 5, nonce := 0, code := [], storage := [] })],
             global_nonce := 0, state_root := zero32, block_number := 0 },
           mockZkProof) := by
  rfl

/-- Claim C3 (confirmed).  The engine's transaction execution always returns
`Ok`; and for a transaction whose sender lacks sufficient balance the sender
is left untouched while the recipient is still credited, so the total balance
in the resulting state grows by exactly the transferred value (strictly, when
the value is positive). -/
theorem C3_engine_execution_total_and_inflating (e : ZkSacConsensusEngine)
    (tx : Transaction)
    (hins : senderLacksFunds e.current_state.accounts tx = true)
    (hov : sumBalances e.current_state.accounts + tx.value < U64MOD) :
    (∀ (e' : ZkSacConsensusEngine) (txs : List Transaction),
       ∃ r, execute_transactions_with_zkvm e' txs = Except.ok r) ∧
    ∃ s proof, execute_transactions_with_zkvm e [tx] = Except.ok (s, proof) ∧
      sumBalances s.accounts = sumBalances e.current_state.accounts + tx.value ∧
      (0 < tx.value →
        sumBalances e.current_state.accounts < sumBalances s.accounts) := by
  have key : sumBalances (executeTx e.current_state.accounts tx)
      = sumBalances e.current_state.accounts + tx.value := by
    unfold executeTx
    rw [debitSender_of_lacks _ _ hins]
    · exact sumBalances_creditRecipient _ _ hov
  refine ⟨fun e' txs => ⟨_, rfl⟩, _, mockZkProof, rfl, ?_, ?_⟩
  · simpa [List.foldl] using key
  · intro hv
    have : sumBalances (List.foldl executeTx e.current_state.accounts [tx])
        = sumBalances e.current_state.accounts + tx.value := by
      simpa [List.foldl] using key
    simp only [this]
    omega

/-- Witness for C3 at a concrete input: a sender holding balance 0 transfers
5; execution succeeds and the balance total grows from 0 to 5. -/
theorem C3_concrete_witness :
    (∀ (e' : ZkSacConsensusEngine) (txs : List Transaction),
       ∃ r, execute_transactions_with_zkvm e' txs = Except.ok r) ∧
    ∃ s proof,
      execute_transactions_with_zkvm engineBroke
          [txTransfer (addrOf 1) (addrOf 2) 5] = Except.ok (s, proof) ∧
      sumBalances s.accounts
          = sumBalances engineBroke.current_state.accounts
              + (txTransfer (addrOf 1) (addrOf 2) 5).value ∧
      (0 < (txTransfer (addrOf 1) (addrOf 2) 5).value →
        sumBalances engineBroke.current_state.accounts
          < sumBalances s.accounts) :=
  C3_engine_execution_total_and_inflating engineBroke
    (txTransfer (addrOf 1) (addrOf 2) 5) (by decide) (by decide)

/-- The guest loop in closed form: it processes exactly the longest leading
run of signature-valid transactions, accumulates their gas modulo `2^64`, and
reports success exactly when every transaction of the batch passes the
check. -/
theorem processTxs_eq :
    ∀ (l : List TransactionData) (root : List Nat) (gas idx : Nat),
      gas < U64MOD →
      processTxs root gas idx l =
        (applyTxs root idx (l.takeWhile verify_transaction_signature),
         (gas + sumGuestGas (l.takeWhile verify_transaction_signature)) % U64MOD,
         l.all verify_transaction_signature)
  | [], root, gas, idx, hg => by
    simp [processTxs, applyTxs, sumGuestGas, Nat.mod_eq_of_lt hg]
  | tx :: rest, root, gas, idx, hg => by
    by_cases hs : verify_transaction_signature tx
    · have ih := processTxs_eq rest
        (update_state_root root (compute_transaction_hash tx) idx)
        ((gas + guestGas tx) % U64MOD) (idx + 1)
        (Nat.mod_lt _ (by decide))
      simp only [processTxs, hs, if_true, ih, List.takeWhile_cons_of_pos hs,
        applyTxs, sumGuestGas, List.map_cons, List.sum_cons, List.all_cons,
        Bool.true_and, Nat.mod_add_mod]
      rw [Nat.add_assoc]
    · simp [processTxs, hs, List.takeWhile_cons_of_neg, applyTxs, sumGuestGas,
        Nat.mod_eq_of_lt hg]

/-- The state-transition input of the C2 counterexample: a valid transaction
followed by one whose sender address is all zero. -/
def stInputMixed : StateTransitionInput :=
  { prev_state_root := zero32, transactions := [txDataOk, txDataBad],
    block_number := 0, timestamp := 0 }

/-- Claim C2 is false as stated: in `stInputMixed` the second transaction
fails the precondition check, so `success = false`, yet `new_state_root`
is not the input root — it keeps the first transaction's update. -/
theorem C2_counterexample :
    (verify_state_transition stInputMixed).success = false ∧
    (verify_state_transition stInputMixed).new_state_root
      ≠ stInputMixed.prev_state_root := by
  decide

/-- Claim C2 as amended.  The guest's `success` flag is true exactly when
every transaction of the batch passes the simplified signature check (nonce
and balance are never consulted).  On failure the returned root is the fold
of the updates of the transactions before the first failing one, without the
final block-number/timestamp mixing; in particular, when the first
transaction already fails, the returned root is exactly `prev_state_root`
(the converse need not hold: a passing transaction can leave the root
unchanged, e.g. with equal non-zero addresses, zero value and zero nonce its
XOR hash is all-zero). -/
theorem C2_guest_flag_and_root (input : StateTransitionInput) :
    (verify_state_transition input).success
        = input.transactions.all verify_transaction_signature ∧
    (verify_state_transition input).new_state_root =
      (if input.transactions.all verify_transaction_signature then
         finalize_state_root
           (applyTxs input.prev_state_root 0
             (input.transactions.takeWhile verify_transaction_signature))
           input.block_number input.timestamp
       else
         applyTxs input.prev_state_root 0
           (input.transactions.takeWhile verify_transaction_signature)) ∧
    (∀ t ts, input.transactions = t :: ts →
       verify_transaction_signature t = false →
       (verify_state_transition input).new_state_root
         = input.prev_state_root) := by
  have hp := processTxs_eq input.transactions input.prev_state_root 0 0
    (by decide)
  refine ⟨?_, ?_, ?_⟩
  · simp only [verify_state_transition, hp]
  · simp only [verify_state_transition, hp]
  · intro t ts htx hsig
    rw [htx] at hp
    have htw : (t :: ts).takeWhile verify_transaction_signature = [] :=
      List.takeWhile_cons_of_neg (by simp [hsig])
    simp only [verify_state_transition, htx, hp, htw, List.all_cons, hsig,
      Bool.false_and, if_false, applyTxs]
    simp

/-- Claim C4 is false as stated: `apply_block` inspects no header field, so a
chain of accepted blocks need not be monotonic.  Concretely, blocks numbered
5 then 99 with timestamps 100 then 50 are both accepted. -/
theorem C4_counterexample :
    ∃ e1 e2, apply_block engine0 (blockNumbered 5 100) = Except.ok e1 ∧
      apply_block e1 (blockNumbered 99 50) = Except.ok e2 ∧
      e2.blocks.map (fun b => b.header.block_number) = [5, 99] ∧
      e2.blocks.map (fun b => b.header.timestamp) = [100, 50] ∧
      99 ≠ 5 + 1 ∧ ¬100 < 50 :=
  ⟨_, _, rfl, rfl, rfl, rfl, by decide, by decide⟩

/-- Claim C4 as amended.  Headers built by `create_block_header` carry block
number `chain length + 1`, so a chain extended only by engine-created blocks
has block numbers 1, 2, …, increasing by exactly 1; but `apply_block` itself
enforces nothing (it accepts any block), and timestamps, read from the system
clock, are not checked at all. -/
theorem C4_self_produced_chain_consecutive
    (headerHash : BlockHeader → List Nat) (e : ZkSacConsensusEngine)
    (now : Nat) (txs : List Transaction) (producer : Address) (b : Block)
    (hc : chainConsecutive e.blocks)
    (hb : b.header = create_block_header headerHash e now txs producer) :
    b.header.block_number = e.blocks.length + 1 ∧
    ∃ e', apply_block e b = Except.ok e' ∧ chainConsecutive e'.blocks := by
  have hn : b.header.block_number = e.blocks.length + 1 := by
    rw [hb, create_block_header]
  refine ⟨hn, _, rfl, ?_⟩
  intro i h
  simp only [List.length_append, List.length_cons, List.length_nil] at h
  by_cases hi : i < e.blocks.length
  · rw [List.getElem_append_left hi]
    exact hc i hi
  · have hieq : i = e.blocks.length := by omega
    subst hieq
    rw [List.getElem_append_right (by omega)]
    simpa using hn

/-- Witness for C4 at a concrete input: the empty chain extended by the block
the engine itself produces. -/
theorem C4_concrete_witness :
    blockSelfProduced.header.block_number = engine0.blocks.length + 1 ∧
    ∃ e', apply_block engine0 blockSelfProduced = Except.ok e' ∧
      chainConsecutive e'.blocks :=
  C4_self_produced_chain_consecutive (fun _ => zero32) engine0 0 [] (addrOf 9)
    blockSelfProduced (by intro i h; simp [engine0] at h) rfl

/-- Claim C5 is false as stated: at height 0 with validators
`[stake 0, stake 10]` the code elects the zero-stake validator, although
under the specification's stake-weighted rule every possible draw in
`[0, total_stake)` lands in the staked validator's cumulative interval. -/
theorem C5_counterexample :
    select_block_producer engineElection 0 = Except.ok (addrOf 1) ∧
    ((List.range 10).all (fun draw =>
      spec_select_block_producer [valZeroStake, valStaked] draw
        == some (addrOf 2))) = true ∧
    addrOf 1 ≠ addrOf 2 := by
  refine ⟨rfl, by decide, by decide⟩

/-- Claim C5 as amended.  Producer selection is deterministic but ignores
stake entirely: with a non-empty validator list it returns the address at
index `block_number mod length` in list order (hence it is periodic in the
height with period the validator count), and an empty validator set is an
error. -/
theorem C5_roundrobin_selection (e : ZkSacConsensusEngine) (n : Nat) :
    (e.validator_set.validators = [] →
      select_block_producer e n = Except.error "No validators available") ∧
    (∀ v vs, e.validator_set.validators = v :: vs →
      select_block_producer e n =
        Except.ok (((v :: vs).get
          ⟨n % (v :: vs).length, Nat.mod_lt _ (Nat.succ_pos _)⟩).address) ∧
      select_block_producer e (n + (v :: vs).length)
        = select_block_producer e n) := by
  constructor
  · intro h
    simp [select_block_producer, h]
  · intro v vs h
    constructor
    · simp [select_block_producer, h]
    · simp [select_block_producer, h, Nat.add_mod_right]

/-- On a non-empty level the implementation's `while` loop computes exactly
the specification's pairwise reduction, and it ends on a single node. -/
theorem merkleLoop_eq_reduce (b3 : List Nat → List Nat) :
    ∀ (l : List (List Nat)), l ≠ [] →
      merkleLoop b3 l = [spec_merkle_reduce b3 l]
  | [], h => absurd rfl h
  | [x], _ => by
    simp [merkleLoop, spec_merkle_reduce]
  | x :: y :: rest, _ => by
    rw [merkleLoop, spec_merkle_reduce]
    exact merkleLoop_eq_reduce b3 (merkleLevel b3 (x :: y :: rest))
      (by simp [merkleLevel])
  termination_by l => l.length
  decreasing_by
    simp only [merkleLevel, List.length_cons, merkleLevel_length]
    omega

/-- Claim C6 (confirmed).  For every hash function in place of Blake3, the
implementation's `merkle_root` agrees with the specification's description:
all-zero on the empty sequence, and otherwise the level-by-level pairwise
reduction — `b3 (left ++ right)` per full pair, an odd trailing node promoted
unchanged — of the hashed leaves. -/
theorem C6_merkle_root_matches_spec (b3 : List Nat → List Nat)
    (leaves : List (List Nat)) :
    merkle_root b3 leaves = spec_merkle_root b3 leaves ∧
    merkle_root b3 [] = zero32 := by
  refine ⟨?_, rfl⟩
  match leaves with
  | [] => rfl
  | [l] => simp [merkle_root, spec_merkle_root, spec_merkle_reduce]
  | a :: b :: ls =>
    rw [show merkle_root b3 (a :: b :: ls)
        = (merkleLoop b3 ((a :: b :: ls).map b3)).headD zero32 from rfl]
    rw [merkleLoop_eq_reduce b3 ((a :: b :: ls).map b3) (by simp)]
    rfl

/-- Claim C7 is false as stated: for a batch of one transaction with empty
data and `gas_limit = 5`, the guest relation charges 21000, but the gas_used
figure actually reported with the proof (`RealZKProver`) and in the block
header is 5 — the sum of `gas_limit` fields, not of `21000 + 16·len(data)`. -/
theorem C7_counterexample :
    (verify_state_transition
      { prev_state_root := zero32, transactions := [txToData txGasFixture],
        block_number := 1, timestamp := 0 }).gas_used = 21000 ∧
    realProverGasUsed [txGasFixture] = 5 ∧
    (create_block_header (fun _ => zero32) engine0 0 [txGasFixture]
      (addrOf 9)).gas_used = 5 ∧
    (5 : Nat) ≠ 21000 := by
  refine ⟨by decide, by decide, by decide, by decide⟩

/-- Claim C7 as amended.  The guest state transition charges
`21000 + 16·len(data)` per transaction it processes and reports the wrapping
sum over the prefix before the first signature failure — the whole batch when
every signature passes; the `gas_used` reported with the generated proof and
the one placed in the block header are instead the wrapping sum of the
batch's `gas_limit` fields (the two agree with each other, not with the
guest). -/
theorem C7_gas_reported (input : StateTransitionInput)
    (txs : List Transaction) (headerHash : BlockHeader → List Nat)
    (e : ZkSacConsensusEngine) (now : Nat) (producer : Address) :
    (verify_state_transition input).gas_used
        = sumGuestGas (input.transactions.takeWhile
            verify_transaction_signature) % U64MOD ∧
    (input.transactions.all verify_transaction_signature = true →
      (verify_state_transition input).gas_used
        = sumGuestGas input.transactions % U64MOD) ∧
    (create_block_header headerHash e now txs producer).gas_used
        = realProverGasUsed txs := by
  have hp := processTxs_eq input.transactions input.prev_state_root 0 0
    (by decide)
  refine ⟨?_, ?_, rfl⟩
  · simp only [verify_state_transition, hp, Nat.zero_add]
  · intro hall
    simp only [verify_state_transition, hp, Nat.zero_add,
      List.takeWhile_eq_self_iff.mpr (by simpa using List.all_eq_true.mp hall)]

/-- `to_le_bytes` always renders exactly its width. -/
theorem leBytes_length : ∀ (w n : Nat), (leBytes w n).length = w
  | 0, _ => rfl
  | w + 1, n => by simp [leBytes, leBytes_length w]

/-- Claim C8 (code bug).  `sign_lms` copies
`message.len().to_le_bytes()` — 8 bytes on the 64-bit host — into the 4-byte
slice `signature[4..8]`; `copy_from_slice` with mismatched lengths panics, so
signing never produces a signature for any key or message, and the
sign-then-verify roundtrip (asserted by the repository's own
`test_lms_signature_cycle`) cannot succeed. -/
theorem C8_sign_lms_always_panics (b3 : List Nat → List Nat)
    (address : Address) (message : List Nat) :
    sign_lms b3 address message = none := by
  have h2 : ∀ sig1 : List Nat,
      copyFromSlice sig1 4 4 (leBytes USIZE_BYTES message.length) = none := by
    intro sig1
    unfold copyFromSlice
    rw [if_neg]
    rw [leBytes_length]
    decide
  cases h1 : copyFromSlice (List.replicate 1024 0) 0 4 (address.take 4) with
  | none =>
    simp only [sign_lms, h1]
    rfl
  | some sig1 =>
    simp only [sign_lms, h1, h2]
    rfl

/-- Little-endian rendering then reading gives the value back, reduced by the
width. -/
theorem leVal_leBytes : ∀ (w n : Nat), leVal (leBytes w n) = n % 256 ^ w
  | 0, n => by simp [leBytes, leVal, Nat.mod_one]
  | w + 1, n => by
    have ih := leVal_leBytes w (n / 256)
    simp only [leBytes, leVal, List.foldr_cons] at *
    rw [ih, pow_succ, Nat.mul_comm (256 ^ w) 256, Nat.mod_mul]

/-- A slice that starts exactly where a known-length left part ends. -/
theorem sliceBytes_after (pre rest : List Nat) (n m : Nat)
    (h : pre.length = n) :
    sliceBytes (pre ++ rest) n (n + m) = rest.take m := by
  unfold sliceBytes
  rw [← h, List.drop_left]
  congr 1
  omega

/-- A slice from position 0 of a known-length left part. -/
theorem sliceBytes_start (pre rest : List Nat) (m : Nat)
    (h : pre.length = m) : sliceBytes (pre ++ rest) 0 m = pre := by
  unfold sliceBytes
  rw [List.drop_zero, Nat.sub_zero, List.take_left' h]

/-- Indexing just past a known-length left part lands at the head of the
right part. -/
theorem getD_after : ∀ (pre rest : List Nat) (d : Nat),
    (pre ++ rest).getD pre.length d = rest.getD 0 d
  | [], _, _ => rfl
  | _ :: xs, rest, d => getD_after xs rest d

/-- Claim C10 (confirmed).  For any hash in place of Blake3, `verify_lms`
accepts exactly the signatures of the stated shape — length at least 41,
first four bytes the address's first four, bytes 4..8 the little-endian
message length, byte 8 equal to `0xAA`, bytes 9..41 the message hash — and
such a signature is assembled from the address, the message length and the
message hash alone, with no secret anywhere: the concrete forged signature
below verifies for every address of full 20-byte length and every message
shorter than 2^32. -/
theorem C10_verify_lms_acceptance (b3 : List Nat → List Nat) :
    (∀ (signature : List Nat) (address : Address) (message : List Nat),
      verify_lms b3 signature address message = Except.ok () ↔
        (41 ≤ signature.length ∧
         sliceBytes signature 0 4 = address.take 4 ∧
         leVal (sliceBytes signature 4 8) = message.length ∧
         signature.getD 8 0 = 170 ∧
         sliceBytes signature 9 41 = b3 message)) ∧
    (∀ (address : Address) (message : List Nat),
      4 ≤ address.length → message.length < 4294967296 →
      (b3 message).length = 32 →
      verify_lms b3
        (address.take 4 ++ leBytes 4 message.length ++ [170] ++ b3 message)
        address message = Except.ok ()) := by
  constructor
  · intro sig addr msg
    constructor
    · intro h
      by_cases hC : 41 ≤ sig.length ∧ sliceBytes sig 0 4 = addr.take 4 ∧
          leVal (sliceBytes sig 4 8) = msg.length ∧ sig.getD 8 0 = 170
      · by_cases hD : sliceBytes sig 9 41 = b3 msg
        · exact ⟨hC.1, hC.2.1, hC.2.2.1, hC.2.2.2, hD⟩
        · rw [verify_lms, if_pos hC, if_neg hD] at h
          exact absurd h (by simp)
      · rw [verify_lms, if_neg hC] at h
        exact absurd h (by simp)
    · rintro ⟨h1, h2, h3, h4, h5⟩
      rw [verify_lms, if_pos ⟨h1, h2, h3, h4⟩, if_pos h5]
  · intro addr msg ha hm hb
    have hta : (addr.take 4).length = 4 := by
      simp [List.length_take, Nat.min_eq_left ha]
    have hlb : (leBytes 4 msg.length).length = 4 := leBytes_length 4 _
    have e1 : addr.take 4 ++ leBytes 4 msg.length ++ [170] ++ b3 msg
        = addr.take 4 ++ (leBytes 4 msg.length ++ ([170] ++ b3 msg)) := by
      simp [List.append_assoc]
    have e2 : addr.take 4 ++ leBytes 4 msg.length ++ [170] ++ b3 msg
        = (addr.take 4 ++ leBytes 4 msg.length) ++ ([170] ++ b3 msg) := by
      simp [List.append_assoc]
    have e3 : addr.take 4 ++ leBytes 4 msg.length ++ [170] ++ b3 msg
        = (addr.take 4 ++ leBytes 4 msg.length ++ [170]) ++ b3 msg := by
      simp [List.append_assoc]
    have h1 : 41 ≤ (addr.take 4 ++ leBytes 4 msg.length ++ [170]
        ++ b3 msg).length := by
      simp [hta, hlb, hb]
    have h2 : sliceBytes (addr.take 4 ++ leBytes 4 msg.length ++ [170]
        ++ b3 msg) 0 4 = addr.take 4 := by
      rw [e1]
      exact sliceBytes_start _ _ _ hta
    have h3 : leVal (sliceBytes (addr.take 4 ++ leBytes 4 msg.length ++ [170]
        ++ b3 msg) 4 8) = msg.length := by
      rw [e1, show (8 : Nat) = 4 + 4 from rfl,
        sliceBytes_after _ _ _ _ hta, List.take_left' hlb, leVal_leBytes]
      exact Nat.mod_eq_of_lt (by norm_num; omega)
    have h4 : (addr.take 4 ++ leBytes 4 msg.length ++ [170]
        ++ b3 msg).getD 8 0 = 170 := by
      rw [e2, show (8 : Nat)
          = (addr.take 4 ++ leBytes 4 msg.length).length from by
            simp [hta, hlb]]
      rw [getD_after]
      rfl
    have h5 : sliceBytes (addr.take 4 ++ leBytes 4 msg.length ++ [170]
        ++ b3 msg) 9 41 = b3 msg := by
      rw [e3, show (41 : Nat) = 9 + 32 from rfl,
        sliceBytes_after _ _ _ _ (by simp [hta, hlb])]
      rw [← hb, List.take_length]
    rw [verify_lms, if_pos ⟨h1, h2, h3, h4⟩, if_pos h5]

/-- Witness for C10 at a concrete input: with the constant hash
`fun _ => replicate 32 7`, the assembled signature for address
`[1, 1, …]` and the empty message verifies. -/
theorem C10_concrete_witness :
    verify_lms (fun _ => List.replicate 32 7)
      ((List.replicate 20 1).take 4
        ++ leBytes 4 (List.length ([] : List Nat))
        ++ [170] ++ (fun _ => List.replicate 32 7) ([] : List Nat))
      (List.replicate 20 1) [] = Except.ok () :=
  (C10_verify_lms_acceptance (fun _ => List.replicate 32 7)).2
    (List.replicate 20 1) [] (by decide) (by decide) (by decide)

/-- Unfolding step of `leVal`. -/
theorem leVal_cons (b : Nat) (t : List Nat) :
    leVal (b :: t) = b + 256 * leVal t := rfl

/-- Reading a byte list and re-rendering it at its own width restores it,
provided the entries are bytes. -/
theorem leBytes_leVal : ∀ (bs : List Nat), (∀ b ∈ bs, b < 256) →
    leBytes bs.length (leVal bs) = bs
  | [], _ => rfl
  | b :: t, h => by
    have hb : b < 256 := h b (by simp)
    have ih := leBytes_leVal t (fun x hx => h x (by simp [hx]))
    have hmod : (b + 256 * leVal t) % 256 = b := by
      rw [Nat.add_mul_mod_self_left, Nat.mod_eq_of_lt hb]
    have hdiv : (b + 256 * leVal t) / 256 = leVal t := by
      rw [Nat.add_mul_div_left _ _ (by norm_num), Nat.div_eq_of_lt hb,
        Nat.zero_add]
    simp only [List.length_cons, leBytes, leVal_cons, hmod, hdiv, ih]

/-- The value of a byte list is bounded by `256 ^ length`. -/
theorem leVal_lt : ∀ (bs : List Nat), (∀ b ∈ bs, b < 256) →
    leVal bs < 256 ^ bs.length
  | [], _ => by simp [leVal]
  | b :: t, h => by
    have hb : b < 256 := h b (by simp)
    have ih := leVal_lt t (fun x hx => h x (by simp [hx]))
    rw [leVal_cons, List.length_cons, pow_succ]
    calc b + 256 * leVal t < 256 * (leVal t + 1) := by omega
      _ ≤ 256 * 256 ^ t.length :=
        Nat.mul_le_mul_left 256 (Nat.succ_le_of_lt ih)
      _ = 256 ^ t.length * 256 := Nat.mul_comm _ _

/-- Reading `n` bytes off `xs ++ r` with `xs` of length `n` yields `xs`. -/
theorem readBytes_append (xs : List Nat) (n : Nat) (h : xs.length = n)
    (r : List Nat) : readBytes n (xs ++ r) = some (xs, r) := by
  unfold readBytes
  rw [if_pos (by simp [← h])]
  rw [← h, List.take_left, List.drop_left]

/-- A successful `readBytes` splits its input. -/
theorem readBytes_sound (n : Nat) (b x r : List Nat)
    (h : readBytes n b = some (x, r)) : b = x ++ r ∧ x.length = n := by
  unfold readBytes at h
  by_cases hn : n ≤ b.length
  · rw [if_pos hn] at h
    injection h with h'
    rw [Prod.mk.injEq] at h'
    obtain ⟨hx, hr⟩ := h'
    subst hx
    subst hr
    exact ⟨(List.take_append_drop n b).symm, by
      simp [List.length_take, Nat.min_eq_left hn]⟩
  · rw [if_neg hn] at h
    exact absurd h (by simp)

/-- Reading a `u64` off its encoding restores the value. -/
theorem readU64_append (v : Nat) (hv : v < U64MOD) (r : List Nat) :
    readU64 (leBytes 8 v ++ r) = some (v, r) := by
  have hval : leVal (leBytes 8 v) = v := by
    rw [leVal_leBytes, show (256 : Nat) ^ 8 = U64MOD from by norm_num [U64MOD]]
    exact Nat.mod_eq_of_lt hv
  unfold readU64
  rw [readBytes_append _ _ (leBytes_length 8 v) r]
  simp [hval]

/-- A successful `readU64` consumed exactly the value's encoding. -/
theorem readU64_sound (b : List Nat) (v : Nat) (r : List Nat)
    (hbytes : ∀ x ∈ b, x < 256) (h : readU64 b = some (v, r)) :
    b = leBytes 8 v ++ r ∧ v < U64MOD := by
  unfold readU64 at h
  cases hrb : readBytes 8 b with
  | none => rw [hrb] at h; exact absurd h (by simp)
  | some p =>
    obtain ⟨x, r'⟩ := p
    rw [hrb] at h
    simp only [Option.map_some'] at h
    injection h with h'
    rw [Prod.mk.injEq] at h'
    obtain ⟨hv, hr⟩ := h'
    subst hv
    subst hr
    obtain ⟨hb, hlen⟩ := readBytes_sound _ _ _ _ hrb
    have hxb : ∀ y ∈ x, y < 256 :=
      fun y hy => hbytes y (hb ▸ List.mem_append_left _ hy)
    have hx : leBytes 8 (leVal x) = x := by
      rw [← hlen]
      exact leBytes_leVal x hxb
    refine ⟨by rw [hx, hb], ?_⟩
    have := leVal_lt x hxb
    rw [hlen, show (256 : Nat) ^ 8 = U64MOD from by norm_num [U64MOD]] at this
    exact this

/-- Reading a length-prefixed vector off its encoding restores it. -/
theorem readVec_append (v : List Nat) (hv : v.length < U64MOD)
    (r : List Nat) : readVec (encodeVec v ++ r) = some (v, r) := by
  unfold readVec encodeVec
  rw [List.append_assoc, readU64_append _ hv]
  simp [readBytes_append v v.length rfl r]

/-- A successful `readVec` consumed exactly a vector encoding. -/
theorem readVec_sound (b v r : List Nat) (hbytes : ∀ x ∈ b, x < 256)
    (h : readVec b = some (v, r)) :
    b = encodeVec v ++ r ∧ v.length < U64MOD := by
  unfold readVec at h
  cases hu : readU64 b with
  | none => rw [hu] at h; exact absurd h (by simp)
  | some p =>
    obtain ⟨n, r1⟩ := p
    rw [hu] at h
    simp only [Option.bind_eq_bind, Option.some_bind] at h
    obtain ⟨hb1, hn⟩ := readU64_sound b n r1 hbytes hu
    obtain ⟨hb2, hlen⟩ := readBytes_sound n r1 v r h
    subst hlen
    refine ⟨?_, hn⟩
    rw [hb1, hb2]
    simp [encodeVec, List.append_assoc]

/-- Reading a `SignatureType` off its tag encoding restores it. -/
theorem readSigType_append (st : SignatureType) (r : List Nat) :
    readSigType (leBytes 4 (sigTypeTag st) ++ r) = some (st, r) := by
  cases st <;>
    (unfold readSigType
     rw [readBytes_append _ _ (leBytes_length 4 _) r]
     rfl)

/-- A successful `readSigType` consumed exactly a known tag. -/
theorem readSigType_sound (b : List Nat) (st : SignatureType) (r : List Nat)
    (hbytes : ∀ x ∈ b, x < 256) (h : readSigType b = some (st, r)) :
    b = leBytes 4 (sigTypeTag st) ++ r := by
  unfold readSigType at h
  cases hrb : readBytes 4 b with
  | none => rw [hrb] at h; exact absurd h (by simp)
  | some p =>
    obtain ⟨x, r1⟩ := p
    rw [hrb] at h
    simp only [Option.map_some', Option.bind_eq_bind, Option.some_bind] at h
    obtain ⟨hb, hlen⟩ := readBytes_sound _ _ _ _ hrb
    have hxb : ∀ y ∈ x, y < 256 :=
      fun y hy => hbytes y (hb ▸ List.mem_append_left _ hy)
    have hx : leBytes 4 (leVal x) = x := by
      rw [← hlen]
      exact leBytes_leVal x hxb
    split at h
    all_goals first
      | (injection h with h'
         rw [Prod.mk.injEq] at h'
         obtain ⟨hst, hr⟩ := h'
         subst hst
         subst hr
         rw [hb, ← hx]
         congr 1
         simp_all [sigTypeTag])
      | exact absurd h (by simp)

/-- Parsing the encoding of a well-formed transaction (with anything
appended) restores the transaction and leaves the appendage. -/
theorem readTransaction_encode (tx : Transaction) (h : tx.wf)
    (rest : List Nat) :
    readTransaction (encode_blockchain_data tx ++ rest) = some (tx, rest) := by
  obtain ⟨h1, h2, h3, h4, h5, h6, h7⟩ := h
  unfold readTransaction encode_blockchain_data
  simp only [List.append_assoc, readBytes_append _ _ h1,
    readBytes_append _ _ h2, readU64_append _ h3, readVec_append _ h4,
    readU64_append _ h5, readU64_append _ h6, readVec_append _ h7,
    readSigType_append, Option.bind_eq_bind, Option.some_bind]

/-- A successful transaction parse consumed exactly the canonical encoding of
its result: the input is that encoding followed by the leftover bytes. -/
theorem readTransaction_sound (b : List Nat) (tx : Transaction)
    (rest : List Nat) (hbytes : ∀ x ∈ b, x < 256)
    (h : readTransaction b = some (tx, rest)) :
    b = encode_blockchain_data tx ++ rest := by
  unfold readTransaction at h
  cases hr1 : readBytes 20 b with
  | none => rw [hr1] at h; exact absurd h (by simp)
  | some p1 =>
  obtain ⟨f, b1⟩ := p1
  rw [hr1] at h
  simp only [Option.bind_eq_bind, Option.some_bind] at h
  obtain ⟨hb1, hl1⟩ := readBytes_sound _ _ _ _ hr1
  have hby1 : ∀ x ∈ b1, x < 256 :=
    fun x hx => hbytes x (hb1 ▸ List.mem_append_right _ hx)
  cases hr2 : readBytes 20 b1 with
  | none => rw [hr2] at h; exact absurd h (by simp)
  | some p2 =>
  obtain ⟨t, b2⟩ := p2
  rw [hr2] at h
  simp only [Option.some_bind] at h
  obtain ⟨hb2, hl2⟩ := readBytes_sound _ _ _ _ hr2
  have hby2 : ∀ x ∈ b2, x < 256 :=
    fun x hx => hby1 x (hb2 ▸ List.mem_append_right _ hx)
  cases hr3 : readU64 b2 with
  | none => rw [hr3] at h; exact absurd h (by simp)
  | some p3 =>
  obtain ⟨value, b3⟩ := p3
  rw [hr3] at h
  simp only [Option.some_bind] at h
  obtain ⟨hb3, -⟩ := readU64_sound _ _ _ hby2 hr3
  have hby3 : ∀ x ∈ b3, x < 256 :=
    fun x hx => hby2 x (hb3 ▸ List.mem_append_right _ hx)
  cases hr4 : readVec b3 with
  | none => rw [hr4] at h; exact absurd h (by simp)
  | some p4 =>
  obtain ⟨data, b4⟩ := p4
  rw [hr4] at h
  simp only [Option.some_bind] at h
  obtain ⟨hb4, -⟩ := readVec_sound _ _ _ hby3 hr4
  have hby4 : ∀ x ∈ b4, x < 256 :=
    fun x hx => hby3 x (hb4 ▸ List.mem_append_right _ hx)
  cases hr5 : readU64 b4 with
  | none => rw [hr5] at h; exact absurd h (by simp)
  | some p5 =>
  obtain ⟨gas_limit, b5⟩ := p5
  rw [hr5] at h
  simp only [Option.some_bind] at h
  obtain ⟨hb5, -⟩ := readU64_sound _ _ _ hby4 hr5
  have hby5 : ∀ x ∈ b5, x < 256 :=
    fun x hx => hby4 x (hb5 ▸ List.mem_append_right _ hx)
  cases hr6 : readU64 b5 with
  | none => rw [hr6] at h; exact absurd h (by simp)
  | some p6 =>
  obtain ⟨nonce, b6⟩ := p6
  rw [hr6] at h
  simp only [Option.some_bind] at h
  obtain ⟨hb6, -⟩ := readU64_sound _ _ _ hby5 hr6
  have hby6 : ∀ x ∈ b6, x < 256 :=
    fun x hx => hby5 x (hb6 ▸ List.mem_append_right _ hx)
  cases hr7 : readVec b6 with
  | none => rw [hr7] at h; exact absurd h (by simp)
  | some p7 =>
  obtain ⟨signat, b7⟩ := p7
  rw [hr7] at h
  simp only [Option.some_bind] at h
  obtain ⟨hb7, -⟩ := readVec_sound _ _ _ hby6 hr7
  have hby7 : ∀ x ∈ b7, x < 256 :=
    fun x hx => hby6 x (hb7 ▸ List.mem_append_right _ hx)
  cases hr8 : readSigType b7 with
  | none => rw [hr8] at h; exact absurd h (by simp)
  | some p8 =>
  obtain ⟨st, b8⟩ := p8
  rw [hr8] at h
  simp only [Option.some_bind] at h
  have hb8 := readSigType_sound _ _ _ hby7 hr8
  injection h with h'
  rw [Prod.mk.injEq] at h'
  obtain ⟨htx, hrest⟩ := h'
  subst htx
  subst hrest
  rw [hb1, hb2, hb3, hb4, hb5, hb6, hb7, hb8]
  simp [encode_blockchain_data, List.append_assoc]

/-- Claim C9 is false as stated: appending one junk byte to the canonical
encoding of `txEncodeFixture` still decodes (the legacy bincode configuration
permits trailing bytes), and re-encoding the decoded value drops the junk
byte, so `encode (decode b) ≠ b`. -/
theorem C9_counterexample :
    decode_blockchain_data (encode_blockchain_data txEncodeFixture ++ [0])
        = some txEncodeFixture ∧
    encode_blockchain_data txEncodeFixture
        ≠ encode_blockchain_data txEncodeFixture ++ [0] := by
  constructor
  · decide
  · decide

/-- Claim C9 as amended.  For every well-formed transaction,
`decode (encode tx) = tx`; and whenever decode succeeds on a byte string, the
string is the canonical encoding of the result followed by (possibly empty)
trailing bytes that decode ignored — so `encode (decode b) = b` holds exactly
when nothing trails, and fails otherwise. -/
theorem C9_bincode_partial_roundtrip :
    (∀ tx : Transaction, tx.wf →
      decode_blockchain_data (encode_blockchain_data tx) = some tx) ∧
    (∀ (b : List Nat) (tx : Transaction), (∀ x ∈ b, x < 256) →
      decode_blockchain_data b = some tx →
      ∃ rest, b = encode_blockchain_data tx ++ rest) := by
  constructor
  · intro tx h
    unfold decode_blockchain_data
    rw [show encode_blockchain_data tx = encode_blockchain_data tx ++ []
      from (List.append_nil _).symm]
    rw [readTransaction_encode tx h]
    rfl
  · intro b tx hbytes h
    unfold decode_blockchain_data at h
    cases hrt : readTransaction b with
    | none => rw [hrt] at h; exact absurd h (by simp)
    | some p =>
      obtain ⟨tx', rest⟩ := p
      rw [hrt] at h
      simp only [Option.map_some'] at h
      injection h with h'
      subst h'
      exact ⟨rest, readTransaction_sound b tx' rest hbytes hrt⟩

end ZkSac
